import Mathlib

/-! Plugin loader of `component/custom/custom.go`

A shallow embedding of `initializePlugins` and of the package `init` of
`component/custom/custom.go`, and the properties of the loader proved over it.

Go strings are Lean strings; the two library functions the loader uses on them
(`strings.Split` with the separator `":"` and `strings.HasSuffix`) are defined on the
underlying character lists.  The separator and the suffix `.so` are ASCII, so on UTF-8
text splitting and suffix test by characters agree with those by bytes.  The collaborators of the loader which live outside the
package (`plugin.Open`, `(*plugin.Plugin).Lookup`, the type assertion on the resolved
symbol, the factory of a plugin and `time.Since`) are the fields of a `World`.  Every
effect of the loader on its collaborators (log lines, opens, lookups, factory calls,
registry insertions, the line printed and the exit of `init`) is recorded, in program
order, in a list of `Event`s returned next to the result.
-/

namespace Custom

/-! ## Strings -/

/-- The function `strings.HasSuffix(s, suffix)`: the last `len(suffix)` bytes of `s`
are `suffix`. -/
def hasSuffix (s suffix : String) : Bool :=
  decide (suffix.length ≤ s.length) &&
    decide (s.data.drop (s.length - suffix.length) = suffix.data)

/-- Splitting of a character list at every `':'`; the pieces between the separators, in
order.  The empty list gives one empty piece. -/
def splitChars : List Char → List (List Char)
  | [] => [[]]
  | c :: cs =>
    if c = ':' then [] :: splitChars cs
    else
      match splitChars cs with
      | [] => [[c]]
      | piece :: pieces => (c :: piece) :: pieces

/-- The call `strings.Split(s, ":")`: the substrings of `s` between the occurrences of
the separator `":"`. -/
def split (s : String) : List String :=
  (splitChars s.data).map String.mk

/-- The string `sub` occurs in `s` as a contiguous substring. -/
def occursIn (sub s : String) : Prop :=
  sub.data <:+: s.data

instance (sub s : String) : Decidable (occursIn sub s) := by
  unfold occursIn; infer_instance

/-! ## Collaborators and effects -/

/-- The collaborators of the loader.  `η` is the type of plugin handles
(`*plugin.Plugin`), `σ` the type of resolved symbols (`plugin.Symbol`), `κ` the type of
component constructors (`func() exported.Component`). -/
structure World (η σ κ : Type) where
  /-- The call `plugin.Open(file)`: a handle, or the text of the error. -/
  pluginOpen : String → Except String η
  /-- The call `p.Lookup(symName)`: a symbol, or the text of the error. -/
  lookup : η → String → Except String σ
  /-- The type assertion `sym.(func() (string, func() exported.Component))`: the factory
  when the symbol has that type; applying the factory is the call
  `getExternalComponent()`. -/
  asFactory : σ → Option (Unit → String × κ)
  /-- The text of `time.Since(startTime)` in the log line of the plugin `file`. -/
  since : String → String

/-- The effects of the loader and of `init` on their collaborators. -/
inductive Event (κ : Type) where
  /-- A call of `log.Info` with the formatted message. -/
  | logInfo (msg : String)
  /-- A call of `log.Err` with the formatted message. -/
  | logErr (msg : String)
  /-- A call of `plugin.Open(file)`. -/
  | pluginOpen (file : String)
  /-- A call of `p.Lookup(symName)` on the handle of `file`. -/
  | lookup (file : String) (symName : String)
  /-- A call of the factory `getExternalComponent()` of the plugin `file`. -/
  | callFactory (file : String)
  /-- A call of a component constructor. -/
  | callConstructor (ctor : κ)
  /-- A call of `internal.AddComponent(name, ctor)`. -/
  | addComponent (name : String) (ctor : κ)
  /-- A call of `fmt.Printf` with the formatted text. -/
  | printf (text : String)
  /-- A call of `os.Exit(code)`. -/
  | exit (code : Int)

/-- The result of a run: the returned `error` (`none` is `nil`, `some msg` an error
whose `Error()` is `msg`) and the effects of the run in program order. -/
abbrev Run (κ : Type) := Option String × List (Event κ)

/-- Effects `es` followed by the run `r`. -/
def after {κ : Type} (es : List (Event κ)) (r : Run κ) : Run κ :=
  (r.1, es ++ r.2)

/-! ## The loader -/

/-- The loop `for _, file := range pluginFiles` of `initializePlugins`, with the
`return nil` which follows it. -/
def loadPlugins {η σ κ : Type} (w : World η σ κ) : List String → Run κ
  | [] => (none, [])
  | file :: rest =>
    if !hasSuffix file ".so" then
      after [Event.logErr ("Invalid plugin file extension: " ++ file)] (loadPlugins w rest)
    else
      match w.pluginOpen file with
      | Except.error err =>
        (some ("error opening plugin " ++ file ++ ": " ++ err),
          [Event.logInfo ("loading plugin " ++ file),
           Event.pluginOpen file,
           Event.logErr ("Error opening plugin " ++ file ++ ": " ++ err)])
      | Except.ok p =>
        match w.lookup p "GetExternalComponent" with
        | Except.error err =>
          (some ("GetExternalComponent function lookup error in plugin " ++ file ++ ": "
              ++ err),
            [Event.logInfo ("loading plugin " ++ file),
             Event.pluginOpen file,
             Event.lookup file "GetExternalComponent",
             Event.logErr ("GetExternalComponent function lookup error in plugin "
               ++ file ++ ": " ++ err)])
        | Except.ok getExternalComponentFunc =>
          match w.asFactory getExternalComponentFunc with
          | none =>
            (some ("GetExternalComponent function in " ++ file
                ++ " has some incorrect definition"),
              [Event.logInfo ("loading plugin " ++ file),
               Event.pluginOpen file,
               Event.lookup file "GetExternalComponent",
               Event.logErr ("GetExternalComponent function in " ++ file
                 ++ " has some incorrect definition")])
          | some getExternalComponent =>
            after
              [Event.logInfo ("loading plugin " ++ file),
               Event.pluginOpen file,
               Event.lookup file "GetExternalComponent",
               Event.callFactory file,
               Event.addComponent (getExternalComponent ()).1 (getExternalComponent ()).2,
               Event.logInfo ("Plugin " ++ file ++ " loaded in " ++ w.since file)]
              (loadPlugins w rest)

/-- The function `initializePlugins`; `pluginFilesPath` is the value of
`os.Getenv("BLOBFUSE_PLUGIN_PATH")`, the empty string when the variable is unset. -/
def initializePlugins {η σ κ : Type} (w : World η σ κ) (pluginFilesPath : String) : Run κ :=
  if pluginFilesPath = "" then
    (none, [Event.logInfo "No plugins to load, BLOBFUSE_PLUGIN_PATH is empty"])
  else
    loadPlugins w (split pluginFilesPath)

/-- The package `init`: the effects of the run, the last of which is `os.Exit(1)` when
`initializePlugins` returned an error. -/
def init {η σ κ : Type} (w : World η σ κ) (pluginFilesPath : String) : List (Event κ) :=
  match initializePlugins w pluginFilesPath with
  | (none, trace) => trace
  | (some err, trace) =>
    trace ++
      [Event.logErr ("custom::Error initializing plugins: " ++ err),
       Event.printf ("failed to initialize plugin: " ++ err ++ "\n"),
       Event.exit 1]

/-! ## Observations on a trace -/

/-- The registry insertions of a trace, in order. -/
def insertions {κ : Type} : List (Event κ) → List (String × κ)
  | [] => []
  | Event.addComponent name ctor :: es => (name, ctor) :: insertions es
  | _ :: es => insertions es

/-- The paths on which a trace calls `plugin.Open`, in order. -/
def opened {κ : Type} : List (Event κ) → List String
  | [] => []
  | Event.pluginOpen file :: es => file :: opened es
  | _ :: es => opened es

/-- The paths on which a trace calls `Lookup`, in order. -/
def lookedUp {κ : Type} : List (Event κ) → List String
  | [] => []
  | Event.lookup file _ :: es => file :: lookedUp es
  | _ :: es => lookedUp es

/-- The paths whose factory a trace calls, in order. -/
def factoryCalls {κ : Type} : List (Event κ) → List String
  | [] => []
  | Event.callFactory file :: es => file :: factoryCalls es
  | _ :: es => factoryCalls es

/-! ## The kinds of entries -/

/-- The factory of the plugin `file`: what the open, the lookup of
`GetExternalComponent` and the type assertion give when the three succeed. -/
def factoryOf {η σ κ : Type} (w : World η σ κ) (file : String) : Option (Unit → String × κ) :=
  match w.pluginOpen file with
  | Except.error _ => none
  | Except.ok p =>
    match w.lookup p "GetExternalComponent" with
    | Except.error _ => none
    | Except.ok sym => w.asFactory sym

/-- The open of `file` fails with the cause `err`. -/
def OpenFails {η σ κ : Type} (w : World η σ κ) (file err : String) : Prop :=
  w.pluginOpen file = Except.error err

/-- The file opens and the lookup of `GetExternalComponent` fails with the cause `err`. -/
def LookupFails {η σ κ : Type} (w : World η σ κ) (file err : String) : Prop :=
  ∃ p, w.pluginOpen file = Except.ok p ∧
    w.lookup p "GetExternalComponent" = Except.error err

/-- The file opens, the symbol `GetExternalComponent` is found, and it does not have the
type of a factory. -/
def WrongSignature {η σ κ : Type} (w : World η σ κ) (file : String) : Prop :=
  ∃ p sym, w.pluginOpen file = Except.ok p ∧
    w.lookup p "GetExternalComponent" = Except.ok sym ∧ w.asFactory sym = none

/-- The entry `file` fails fatally: it ends with `.so` and its open fails, or its lookup
fails, or its symbol has the wrong signature. -/
def Fatal {η σ κ : Type} (w : World η σ κ) (file : String) : Prop :=
  hasSuffix file ".so" = true ∧
    ((∃ err, OpenFails w file err) ∨ (∃ err, LookupFails w file err) ∨ WrongSignature w file)

/-- The entry `file` is valid and `fac` is its factory: it ends with `.so`, opens,
exposes `GetExternalComponent`, and the symbol passes the signature check as `fac`. -/
def Loads {η σ κ : Type} (w : World η σ κ) (file : String) (fac : Unit → String × κ) : Prop :=
  hasSuffix file ".so" = true ∧
    ∃ p sym, w.pluginOpen file = Except.ok p ∧
      w.lookup p "GetExternalComponent" = Except.ok sym ∧ w.asFactory sym = some fac

/-- The six effects of the loop body on a valid entry. -/
def loadedBlock {η σ κ : Type} (w : World η σ κ) (file : String) (fac : Unit → String × κ) :
    List (Event κ) :=
  [Event.logInfo ("loading plugin " ++ file),
   Event.pluginOpen file,
   Event.lookup file "GetExternalComponent",
   Event.callFactory file,
   Event.addComponent (fac ()).1 (fac ()).2,
   Event.logInfo ("Plugin " ++ file ++ " loaded in " ++ w.since file)]

/-- The registry insertion the loop body makes for the entry `file`: the pair its factory
returns when the entry is valid, none when the entry is skipped or fatal. -/
def pairOf {η σ κ : Type} (w : World η σ κ) (file : String) : Option (String × κ) :=
  if hasSuffix file ".so" then (factoryOf w file).map (fun fac => fac ()) else none

/-! ## A concrete world -/

/-- The factories of the plugins of `demoWorld`: `/p/a.so` registers `cacheX`, `/p/b.so`
registers `backendY`; constructors are numbered. -/
def demoFactory (file : String) : Unit → String × Nat :=
  fun _ =>
    if file = "/p/a.so" then ("cacheX", 1)
    else if file = "/p/b.so" then ("backendY", 2)
    else ("comp" ++ file, 0)

/-- A world in which `/p/missing.so` does not open, `/p/nosym.so` opens and lacks the
symbol, `/p/wrong.so` exposes a symbol of the wrong type, and every other file is a
plugin whose factory is `demoFactory`.  Handles and symbols are named by the path. -/
def demoWorld : World String String Nat where
  pluginOpen := fun file =>
    if file = "/p/missing.so" then Except.error "no such file" else Except.ok file
  lookup := fun p _ =>
    if p = "/p/nosym.so" then Except.error "symbol not found" else Except.ok p
  asFactory := fun sym =>
    if sym = "/p/wrong.so" then none else some (demoFactory sym)
  since := fun _ => "1ms"

/-! ## Unfolding the loop -/

section Loop

variable {η σ κ : Type}

@[simp] theorem after_fst (es : List (Event κ)) (r : Run κ) : (after es r).1 = r.1 := rfl

@[simp] theorem after_snd (es : List (Event κ)) (r : Run κ) : (after es r).2 = es ++ r.2 := rfl

@[simp] theorem loadPlugins_nil (w : World η σ κ) : loadPlugins w [] = (none, []) := rfl

theorem loadPlugins_skip (w : World η σ κ) (file : String) (rest : List String)
    (h : hasSuffix file ".so" = false) :
    loadPlugins w (file :: rest) =
      after [Event.logErr ("Invalid plugin file extension: " ++ file)] (loadPlugins w rest) := by
  simp [loadPlugins, h]

theorem loads_factoryOf {w : World η σ κ} {file : String} {fac : Unit → String × κ}
    (h : Loads w file fac) : factoryOf w file = some fac := by
  obtain ⟨_, p, sym, hp, hs, hf⟩ := h
  simp [factoryOf, hp, hs, hf]

theorem loads_of_factoryOf {w : World η σ κ} {file : String} {fac : Unit → String × κ}
    (hs : hasSuffix file ".so" = true) (h : factoryOf w file = some fac) : Loads w file fac := by
  refine ⟨hs, ?_⟩
  unfold factoryOf at h
  cases hp : w.pluginOpen file with
  | error e => simp [hp] at h
  | ok p =>
    cases hl : w.lookup p "GetExternalComponent" with
    | error e => simp [hp, hl] at h
    | ok sym => exact ⟨p, sym, rfl, hl, by simpa [hp, hl] using h⟩

theorem fatal_iff {w : World η σ κ} {file : String} :
    Fatal w file ↔ hasSuffix file ".so" = true ∧ factoryOf w file = none := by
  unfold Fatal OpenFails LookupFails WrongSignature factoryOf
  cases hp : w.pluginOpen file with
  | error e => simp
  | ok p =>
    cases hl : w.lookup p "GetExternalComponent" with
    | error e => simp [hl]
    | ok sym => simp [hl]

theorem loadPlugins_loads (w : World η σ κ) (file : String) (rest : List String)
    (fac : Unit → String × κ) (h : Loads w file fac) :
    loadPlugins w (file :: rest) = after (loadedBlock w file fac) (loadPlugins w rest) := by
  obtain ⟨hsuf, p, sym, hp, hs, hf⟩ := h
  simp [loadPlugins, hsuf, hp, hs, hf, loadedBlock]

theorem loadPlugins_openFails (w : World η σ κ) (file err : String) (rest : List String)
    (hsuf : hasSuffix file ".so" = true) (h : OpenFails w file err) :
    loadPlugins w (file :: rest) =
      (some ("error opening plugin " ++ file ++ ": " ++ err),
        [Event.logInfo ("loading plugin " ++ file),
         Event.pluginOpen file,
         Event.logErr ("Error opening plugin " ++ file ++ ": " ++ err)]) := by
  unfold OpenFails at h
  simp [loadPlugins, hsuf, h]

theorem loadPlugins_lookupFails (w : World η σ κ) (file err : String) (rest : List String)
    (hsuf : hasSuffix file ".so" = true) (h : LookupFails w file err) :
    loadPlugins w (file :: rest) =
      (some ("GetExternalComponent function lookup error in plugin " ++ file ++ ": " ++ err),
        [Event.logInfo ("loading plugin " ++ file),
         Event.pluginOpen file,
         Event.lookup file "GetExternalComponent",
         Event.logErr ("GetExternalComponent function lookup error in plugin "
           ++ file ++ ": " ++ err)]) := by
  obtain ⟨p, hp, hl⟩ := h
  simp [loadPlugins, hsuf, hp, hl]

theorem loadPlugins_wrongSignature (w : World η σ κ) (file : String) (rest : List String)
    (hsuf : hasSuffix file ".so" = true) (h : WrongSignature w file) :
    loadPlugins w (file :: rest) =
      (some ("GetExternalComponent function in " ++ file ++ " has some incorrect definition"),
        [Event.logInfo ("loading plugin " ++ file),
         Event.pluginOpen file,
         Event.lookup file "GetExternalComponent",
         Event.logErr ("GetExternalComponent function in " ++ file
           ++ " has some incorrect definition")]) := by
  obtain ⟨p, sym, hp, hl, hf⟩ := h
  simp [loadPlugins, hsuf, hp, hl, hf]

/-- Every entry is skipped, or valid, or fatal. -/
theorem entry_cases (w : World η σ κ) (file : String) :
    hasSuffix file ".so" = false ∨ (∃ fac, Loads w file fac) ∨ Fatal w file := by
  cases hsuf : hasSuffix file ".so" with
  | false => exact Or.inl rfl
  | true =>
    right
    cases hf : factoryOf w file with
    | none => exact Or.inr (fatal_iff.mpr ⟨hsuf, hf⟩)
    | some fac => exact Or.inl ⟨fac, loads_of_factoryOf hsuf hf⟩

/-! ## Observations distribute over concatenation -/

theorem insertions_append (a b : List (Event κ)) :
    insertions (a ++ b) = insertions a ++ insertions b := by
  induction a with
  | nil => rfl
  | cons e a ih => cases e <;> simp [insertions, ih]

theorem opened_append (a b : List (Event κ)) : opened (a ++ b) = opened a ++ opened b := by
  induction a with
  | nil => rfl
  | cons e a ih => cases e <;> simp [opened, ih]

theorem lookedUp_append (a b : List (Event κ)) :
    lookedUp (a ++ b) = lookedUp a ++ lookedUp b := by
  induction a with
  | nil => rfl
  | cons e a ih => cases e <;> simp [lookedUp, ih]

theorem factoryCalls_append (a b : List (Event κ)) :
    factoryCalls (a ++ b) = factoryCalls a ++ factoryCalls b := by
  induction a with
  | nil => rfl
  | cons e a ih => cases e <;> simp [factoryCalls, ih]

theorem after_after (a b : List (Event κ)) (r : Run κ) :
    after a (after b r) = after (a ++ b) r := by
  simp [after]

theorem after_nil (r : Run κ) : after [] r = r := rfl

theorem hasSuffix_ne_empty {file : String} (h : hasSuffix file ".so" = true) : file ≠ "" := by
  rintro rfl
  simp [hasSuffix] at h

theorem pairOf_skip {w : World η σ κ} {file : String} (h : hasSuffix file ".so" = false) :
    pairOf w file = none := by
  simp [pairOf, h]

theorem pairOf_loads {w : World η σ κ} {file : String} {fac : Unit → String × κ}
    (h : Loads w file fac) : pairOf w file = some (fac ()) := by
  simp [pairOf, h.1, loads_factoryOf h]

theorem pairOf_fatal {w : World η σ κ} {file : String} (h : Fatal w file) :
    pairOf w file = none := by
  simp [pairOf, (fatal_iff.mp h).2]

theorem not_fatal_of_loads {w : World η σ κ} {file : String} {fac : Unit → String × κ}
    (h : Loads w file fac) : ¬ Fatal w file := by
  intro hf
  have := (fatal_iff.mp hf).2
  rw [loads_factoryOf h] at this
  cases this

/-- The run on a fatal entry: an error, three or four effects, one open (of the entry),
no insertion, and nothing of what follows the entry. -/
theorem loadPlugins_fatal (w : World η σ κ) (file : String) (rest : List String)
    (h : Fatal w file) :
    ∃ msg tail, loadPlugins w (file :: rest) = (some msg, tail) ∧
      insertions tail = [] ∧ opened tail = [file] ∧ factoryCalls tail = [] := by
  obtain ⟨hsuf, ⟨err, ho⟩ | ⟨err, hl⟩ | hw⟩ := h
  · exact ⟨_, _, loadPlugins_openFails w file err rest hsuf ho, rfl, rfl, rfl⟩
  · exact ⟨_, _, loadPlugins_lookupFails w file err rest hsuf hl, rfl, rfl, rfl⟩
  · exact ⟨_, _, loadPlugins_wrongSignature w file rest hsuf hw, rfl, rfl, rfl⟩

/-- A prefix without a fatal entry runs to its end, and the run goes on with the rest. -/
theorem loadPlugins_append (w : World η σ κ) (pre rest : List String)
    (h : ∀ g ∈ pre, ¬ Fatal w g) :
    loadPlugins w (pre ++ rest) = after (loadPlugins w pre).2 (loadPlugins w rest) ∧
      (loadPlugins w pre).1 = none := by
  induction pre with
  | nil => simp [after]
  | cons g pre ih =>
    have ih := ih (fun x hx => h x (List.mem_cons_of_mem _ hx))
    rcases entry_cases w g with hs | ⟨fac, hl⟩ | hf
    · simp [loadPlugins_skip w g _ hs, ih.1, ih.2, after]
    · simp [loadPlugins_loads w g _ fac hl, ih.1, ih.2, after]
    · exact absurd hf (h g (List.mem_cons_self _ _))

/-- The insertions of a run are the pairs of the entries it went through. -/
theorem insertions_loadPlugins_of_no_fatal (w : World η σ κ) (files : List String)
    (h : ∀ g ∈ files, ¬ Fatal w g) :
    insertions (loadPlugins w files).2 = files.filterMap (pairOf w) := by
  induction files with
  | nil => rfl
  | cons g files ih =>
    have ih := ih (fun x hx => h x (List.mem_cons_of_mem _ hx))
    rcases entry_cases w g with hs | ⟨fac, hl⟩ | hf
    · simp [loadPlugins_skip w g _ hs, insertions_append, insertions, ih, pairOf_skip hs]
    · simp [loadPlugins_loads w g _ fac hl, insertions_append, insertions, ih,
        pairOf_loads hl, loadedBlock]
    · exact absurd hf (h g (List.mem_cons_self _ _))

theorem initializePlugins_of_ne_empty (w : World η σ κ) (s : String) (h : s ≠ "") :
    initializePlugins w s = loadPlugins w (split s) := by
  simp [initializePlugins, h]

theorem split_empty : split "" = [""] := by decide

/-! ## Configuration strings -/

/-- A configuration string one of whose entries ends with `.so` is not empty, so
`initializePlugins` runs the loop on its entries. -/
theorem initializePlugins_of_split (w : World η σ κ) (s : String) (files : List String)
    (file : String) (hsplit : split s = files) (hmem : file ∈ files)
    (hsuf : hasSuffix file ".so" = true) :
    initializePlugins w s = loadPlugins w files := by
  have hne : s ≠ "" := by
    rintro rfl
    rw [split_empty] at hsplit
    subst hsplit
    simp only [List.mem_singleton] at hmem
    exact hasSuffix_ne_empty hsuf hmem
  rw [initializePlugins_of_ne_empty w s hne, hsplit]

/-! ## Messages -/

theorem occursIn_refl (x : String) : occursIn x x := List.infix_refl _

theorem occursIn_append_left {x a : String} (b : String) (h : occursIn x a) :
    occursIn x (a ++ b) := by
  unfold occursIn at *
  rw [String.data_append]
  exact h.trans (List.infix_append' [] a.data b.data)

theorem occursIn_append_right {x b : String} (a : String) (h : occursIn x b) :
    occursIn x (a ++ b) := by
  unfold occursIn at *
  rw [String.data_append]
  exact h.trans (List.suffix_append a.data b.data).isInfix

theorem wrongSignature_msg_ne_lookup_msg (f₁ f₂ err : String) :
    "GetExternalComponent function in " ++ f₁ ++ " has some incorrect definition" ≠
      "GetExternalComponent function lookup error in plugin " ++ f₂ ++ ": " ++ err := by
  intro h
  have h' := congrArg String.data h
  simp only [String.data_append] at h'
  simp at h'

/-! ## The trace has no exit and no constructor call -/

theorem loadPlugins_trace_kinds (w : World η σ κ) (files : List String) :
    ∀ e ∈ (loadPlugins w files).2,
      (∀ code, e ≠ Event.exit code) ∧ (∀ ctor, e ≠ Event.callConstructor ctor) ∧
        (∀ text, e ≠ Event.printf text) := by
  induction files with
  | nil => simp
  | cons g files ih =>
    rcases entry_cases w g with hs | ⟨fac, hl⟩ | ⟨hsuf, ⟨err, ho⟩ | ⟨err, hl⟩ | hw⟩
    · rw [loadPlugins_skip w g _ hs]
      intro e he
      simp only [after_snd, List.mem_append, List.mem_singleton] at he
      rcases he with rfl | he
      · simp
      · exact ih e he
    · rw [loadPlugins_loads w g _ fac hl]
      intro e he
      simp only [after_snd, List.mem_append, loadedBlock, List.mem_cons,
        List.mem_singleton, List.not_mem_nil, or_false] at he
      rcases he with (rfl | rfl | rfl | rfl | rfl | rfl) | he
      all_goals first | exact ih e he | simp
    · rw [loadPlugins_openFails w g err _ hsuf ho]
      intro e he
      simp only [List.mem_cons, List.mem_singleton, List.not_mem_nil, or_false] at he
      rcases he with rfl | rfl | rfl <;> simp
    · rw [loadPlugins_lookupFails w g err _ hsuf hl]
      intro e he
      simp only [List.mem_cons, List.mem_singleton, List.not_mem_nil, or_false] at he
      rcases he with rfl | rfl | rfl | rfl <;> simp
    · rw [loadPlugins_wrongSignature w g _ hsuf hw]
      intro e he
      simp only [List.mem_cons, List.mem_singleton, List.not_mem_nil, or_false] at he
      rcases he with rfl | rfl | rfl | rfl <;> simp

theorem initializePlugins_trace_kinds (w : World η σ κ) (s : String) :
    ∀ e ∈ (initializePlugins w s).2,
      (∀ code, e ≠ Event.exit code) ∧ (∀ ctor, e ≠ Event.callConstructor ctor) ∧
        (∀ text, e ≠ Event.printf text) := by
  by_cases h : s = ""
  · subst h
    intro e he
    simp only [initializePlugins, if_true, List.mem_singleton] at he
    subst he
    simp
  · rw [initializePlugins_of_ne_empty w s h]
    exact loadPlugins_trace_kinds w _

/-! ## The concrete world -/

theorem demoWorld_loads (file : String) (hsuf : hasSuffix file ".so" = true)
    (h₁ : file ≠ "/p/missing.so") (h₂ : file ≠ "/p/nosym.so") (h₃ : file ≠ "/p/wrong.so") :
    Loads demoWorld file (demoFactory file) :=
  ⟨hsuf, file, file, by simp [demoWorld, h₁], by simp [demoWorld, h₂], by simp [demoWorld, h₃]⟩

theorem demoWorld_openFails : OpenFails demoWorld "/p/missing.so" "no such file" := by
  simp [OpenFails, demoWorld]

theorem demoWorld_lookupFails : LookupFails demoWorld "/p/nosym.so" "symbol not found" :=
  ⟨"/p/nosym.so", by simp [demoWorld], by simp [demoWorld]⟩

theorem demoWorld_wrongSignature : WrongSignature demoWorld "/p/wrong.so" :=
  ⟨"/p/wrong.so", "/p/wrong.so", by simp [demoWorld], by simp [demoWorld], by simp [demoWorld]⟩

theorem demoWorld_no_fatal_a : ∀ g ∈ ["/p/a.so"], ¬ Fatal demoWorld g := by
  intro g hg
  simp only [List.mem_singleton] at hg
  subst hg
  exact not_fatal_of_loads
    (demoWorld_loads "/p/a.so" (by decide) (by decide) (by decide) (by decide))

/-! ## The run up to the first fatal entry -/

theorem loadPlugins_first_fatal (w : World η σ κ) (s : String) (pre post : List String)
    (file : String) (hsplit : split s = pre ++ file :: post)
    (hpre : ∀ g ∈ pre, ¬ Fatal w g) (hsuf : hasSuffix file ".so" = true) :
    initializePlugins w s = after (loadPlugins w pre).2 (loadPlugins w (file :: post)) := by
  rw [initializePlugins_of_split w s _ file hsplit (by simp) hsuf]
  exact (loadPlugins_append w pre (file :: post) hpre).1

theorem getLast?_append_of_getLast? {α : Type} (a b : List α) (x : α)
    (h : b.getLast? = some x) : (a ++ b).getLast? = some x := by
  cases b with
  | nil => simp at h
  | cons y b =>
    rw [List.getLast?_eq_getLast _ (by simp)] at h
    rw [List.getLast?_eq_getLast _ (by simp), List.getLast_append_of_ne_nil (by simp)]
    exact h

/-! ## Skipped entries -/

theorem loadPlugins_filter (w : World η σ κ) (files : List String) :
    (loadPlugins w files).1 =
        (loadPlugins w (files.filter (fun f => hasSuffix f ".so"))).1 ∧
      insertions (loadPlugins w files).2 =
        insertions (loadPlugins w (files.filter (fun f => hasSuffix f ".so"))).2 ∧
      opened (loadPlugins w files).2 =
        opened (loadPlugins w (files.filter (fun f => hasSuffix f ".so"))).2 := by
  induction files with
  | nil => simp
  | cons g files ih =>
    rcases entry_cases w g with hs | ⟨fac, hl⟩ | ⟨hsuf, ⟨err, ho⟩ | ⟨err, hl⟩ | hw⟩
    · rw [loadPlugins_skip w g _ hs, List.filter_cons_of_neg (by simp [hs])]
      simp [insertions_append, opened_append, insertions, opened, ih]
    · rw [loadPlugins_loads w g _ fac hl, List.filter_cons_of_pos (by simp [hl.1]),
        loadPlugins_loads w g _ fac hl]
      simp [insertions_append, opened_append, ih]
    · rw [loadPlugins_openFails w g err _ hsuf ho, List.filter_cons_of_pos (by simp [hsuf]),
        loadPlugins_openFails w g err _ hsuf ho]
      simp
    · rw [loadPlugins_lookupFails w g err _ hsuf hl,
        List.filter_cons_of_pos (by simp [hsuf]), loadPlugins_lookupFails w g err _ hsuf hl]
      simp
    · rw [loadPlugins_wrongSignature w g _ hsuf hw,
        List.filter_cons_of_pos (by simp [hsuf]), loadPlugins_wrongSignature w g _ hsuf hw]
      simp

/-- On every configuration string `initializePlugins` returns what the loop returns on
the entries of the string, with the same insertions and the same opens. -/
theorem initializePlugins_split (w : World η σ κ) (s : String) :
    (initializePlugins w s).1 = (loadPlugins w (split s)).1 ∧
      insertions (initializePlugins w s).2 = insertions (loadPlugins w (split s)).2 ∧
      opened (initializePlugins w s).2 = opened (loadPlugins w (split s)).2 := by
  by_cases h : s = ""
  · subst h
    rw [split_empty, loadPlugins_skip w "" [] (by decide)]
    simp [initializePlugins, insertions, opened]
  · rw [initializePlugins_of_ne_empty w s h]
    exact ⟨rfl, rfl, rfl⟩

theorem length_filter_add_length_filter_not {α : Type} (p : α → Bool) (l : List α) :
    (l.filter p).length + (l.filter (fun x => !p x)).length = l.length := by
  induction l with
  | nil => rfl
  | cons x l ih =>
    cases hp : p x
    · simp [List.filter_cons, hp]; omega
    · simp [List.filter_cons, hp]; omega

/-! ## Empty pieces of a split -/

theorem splitChars_ne_nil (l : List Char) : splitChars l ≠ [] := by
  cases l with
  | nil => simp [splitChars]
  | cons c cs =>
    simp only [splitChars]
    split_ifs
    · simp
    · cases splitChars cs <;> simp

theorem splitChars_cons_colon (cs : List Char) : splitChars (':' :: cs) = [] :: splitChars cs := by
  simp [splitChars]

theorem splitChars_cons_of_ne {c : Char} (h : c ≠ ':') (cs : List Char) :
    ∃ piece pieces, splitChars cs = piece :: pieces ∧
      splitChars (c :: cs) = (c :: piece) :: pieces := by
  cases hcs : splitChars cs with
  | nil => exact absurd hcs (splitChars_ne_nil cs)
  | cons piece pieces => exact ⟨piece, pieces, rfl, by simp [splitChars, h, hcs]⟩

/-- The first piece of a split is empty exactly when the list is empty or begins with the
separator. -/
theorem head_splitChars_eq_nil (l : List Char) :
    (splitChars l).head? = some [] ↔ l = [] ∨ l.head? = some ':' := by
  cases l with
  | nil => simp [splitChars]
  | cons c cs =>
    by_cases hc : c = ':'
    · subst hc
      simp [splitChars_cons_colon]
    · obtain ⟨piece, pieces, -, h⟩ := splitChars_cons_of_ne hc cs
      simp [h, hc]

/-- A piece after the first one is empty exactly when the list ends with the separator or
contains two adjacent separators. -/
theorem nil_mem_tail_splitChars (l : List Char) :
    [] ∈ (splitChars l).tail ↔ l.getLast? = some ':' ∨ [':', ':'] <:+: l := by
  induction l with
  | nil => simp [splitChars]
  | cons c cs ih =>
    by_cases hc : c = ':'
    · subst hc
      rw [splitChars_cons_colon, List.tail_cons]
      have hmem : [] ∈ splitChars cs ↔
          (splitChars cs).head? = some [] ∨ [] ∈ (splitChars cs).tail := by
        cases hcs : splitChars cs with
        | nil => simp
        | cons p ps => simp [eq_comm]
      rw [hmem, head_splitChars_eq_nil, ih, List.infix_cons_iff]
      cases cs with
      | nil => simp
      | cons d ds =>
        simp only [List.head?_cons, Option.some.injEq, List.getLast?_cons_cons,
          List.cons_prefix_cons, true_and, List.nil_prefix, and_true, reduceCtorEq, false_or]
        constructor
        · rintro (h | h | h)
          · exact Or.inr (Or.inl h.symm)
          · exact Or.inl h
          · exact Or.inr (Or.inr h)
        · rintro (h | h | h)
          · exact Or.inr (Or.inl h)
          · exact Or.inl h.symm
          · exact Or.inr (Or.inr h)
    · obtain ⟨piece, pieces, hcs, h⟩ := splitChars_cons_of_ne hc cs
      rw [h, List.tail_cons]
      rw [hcs, List.tail_cons] at ih
      rw [ih, List.infix_cons_iff]
      cases cs with
      | nil => simp [hc]
      | cons d ds =>
        have hc' : ¬ ':' = c := fun h => hc h.symm
        simp only [List.getLast?_cons_cons, List.cons_prefix_cons, hc', false_and, false_or]

/-- A piece of a split is empty exactly when the list is empty, begins or ends with the
separator, or contains two adjacent separators. -/
theorem nil_mem_splitChars (l : List Char) :
    [] ∈ splitChars l ↔
      l = [] ∨ l.head? = some ':' ∨ l.getLast? = some ':' ∨ [':', ':'] <:+: l := by
  have hmem : [] ∈ splitChars l ↔
      (splitChars l).head? = some [] ∨ [] ∈ (splitChars l).tail := by
    cases hcs : splitChars l with
    | nil => simp
    | cons p ps => simp [eq_comm]
  rw [hmem, head_splitChars_eq_nil, nil_mem_tail_splitChars]
  tauto

theorem empty_mem_split (s : String) : "" ∈ split s ↔ [] ∈ splitChars s.data := by
  unfold split
  constructor
  · intro h
    obtain ⟨l, hl, hle⟩ := List.mem_map.mp h
    have : l = [] := by
      have := congrArg String.data hle
      simpa using this
    exact this ▸ hl
  · intro h
    exact List.mem_map.mpr ⟨[], h, rfl⟩

/-! ## What a run touches -/

/-- The opens of a run are, in order, entries which pass the suffix check; lookups follow
opens, factory calls follow lookups, and the insertions are the pairs of the factories
called. -/
theorem loadPlugins_touched (w : World η σ κ) (files : List String) :
    opened (loadPlugins w files).2 <+: files.filter (fun f => hasSuffix f ".so") ∧
      lookedUp (loadPlugins w files).2 <+: opened (loadPlugins w files).2 ∧
      factoryCalls (loadPlugins w files).2 <+: lookedUp (loadPlugins w files).2 ∧
      insertions (loadPlugins w files).2 =
        (factoryCalls (loadPlugins w files).2).filterMap (pairOf w) ∧
      (insertions (loadPlugins w files).2).length =
        (factoryCalls (loadPlugins w files).2).length := by
  induction files with
  | nil => simp [opened, lookedUp, factoryCalls, insertions]
  | cons g files ih =>
    rcases entry_cases w g with hs | ⟨fac, hl⟩ | ⟨hsuf, ⟨err, ho⟩ | ⟨err, hl⟩ | hw⟩
    · rw [loadPlugins_skip w g _ hs, List.filter_cons_of_neg (by simp [hs])]
      simpa [insertions_append, opened_append, lookedUp_append, factoryCalls_append,
        insertions, opened, lookedUp, factoryCalls] using ih
    · rw [loadPlugins_loads w g _ fac hl, List.filter_cons_of_pos (by simp [hl.1])]
      obtain ⟨h₁, h₂, h₃, h₄, h₅⟩ := ih
      have e₁ : opened (loadedBlock w g fac) = [g] := rfl
      have e₂ : lookedUp (loadedBlock w g fac) = [g] := rfl
      have e₃ : factoryCalls (loadedBlock w g fac) = [g] := rfl
      have e₄ : insertions (loadedBlock w g fac) = [fac ()] := rfl
      simp only [after_snd, insertions_append, opened_append, lookedUp_append,
        factoryCalls_append, e₁, e₂, e₃, e₄, List.singleton_append, List.prefix_cons_inj,
        List.filterMap_cons, pairOf_loads hl, List.length_cons, List.cons.injEq, true_and]
      exact ⟨h₁, h₂, h₃, h₄, by omega⟩
    · rw [loadPlugins_openFails w g err _ hsuf ho, List.filter_cons_of_pos (by simp [hsuf])]
      simp [insertions, opened, lookedUp, factoryCalls]
    · rw [loadPlugins_lookupFails w g err _ hsuf hl,
        List.filter_cons_of_pos (by simp [hsuf])]
      simp [insertions, opened, lookedUp, factoryCalls]
    · rw [loadPlugins_wrongSignature w g _ hsuf hw,
        List.filter_cons_of_pos (by simp [hsuf])]
      simp [insertions, opened, lookedUp, factoryCalls]

theorem initializePlugins_touched (w : World η σ κ) (s : String) :
    opened (initializePlugins w s).2 <+: (split s).filter (fun f => hasSuffix f ".so") ∧
      lookedUp (initializePlugins w s).2 <+: opened (initializePlugins w s).2 ∧
      factoryCalls (initializePlugins w s).2 <+: lookedUp (initializePlugins w s).2 ∧
      insertions (initializePlugins w s).2 =
        (factoryCalls (initializePlugins w s).2).filterMap (pairOf w) ∧
      (insertions (initializePlugins w s).2).length =
        (factoryCalls (initializePlugins w s).2).length := by
  by_cases h : s = ""
  · subst h
    simp [initializePlugins, insertions, opened, lookedUp, factoryCalls]
  · rw [initializePlugins_of_ne_empty w s h]
    exact loadPlugins_touched w _

/-! ## Factory calls and insertions are adjacent -/

/-- In a run of the loop every factory call is followed at once by the insertion of the
pair it returns, and every insertion follows at once the call of the factory which
returned its pair. -/
theorem loadPlugins_pairing (w : World η σ κ) (files : List String) :
    (∀ i file, (loadPlugins w files).2[i]? = some (Event.callFactory file) →
      ∃ fac, Loads w file fac ∧
        (loadPlugins w files).2[i + 1]? = some (Event.addComponent (fac ()).1 (fac ()).2)) ∧
    (∀ i name ctor, (loadPlugins w files).2[i]? = some (Event.addComponent name ctor) →
      ∃ j file fac, i = j + 1 ∧ Loads w file fac ∧
        (loadPlugins w files).2[j]? = some (Event.callFactory file) ∧
        (name, ctor) = fac ()) := by
  induction files with
  | nil => simp
  | cons g files ih =>
    obtain ⟨ih₁, ih₂⟩ := ih
    rcases entry_cases w g with hs | ⟨fac, hl⟩ | ⟨hsuf, ⟨err, ho⟩ | ⟨err, hl⟩ | hw⟩
    · rw [loadPlugins_skip w g _ hs]
      simp only [after_snd, List.singleton_append]
      constructor
      · intro i file h
        cases i with
        | zero => simp at h
        | succ i =>
          rw [List.getElem?_cons_succ] at h ⊢
          exact ih₁ i file h
      · intro i name ctor h
        cases i with
        | zero => simp at h
        | succ i =>
          rw [List.getElem?_cons_succ] at h
          obtain ⟨j, file, fac, hij, hl, hj, hp⟩ := ih₂ i name ctor h
          exact ⟨j + 1, file, fac, by omega, hl, by rw [List.getElem?_cons_succ]; exact hj, hp⟩
    · rw [loadPlugins_loads w g _ fac hl]
      simp only [after_snd, loadedBlock, List.cons_append, List.nil_append]
      constructor
      · intro i file h
        rcases i with _ | _ | _ | _ | _ | _ | i
        · simp at h
        · simp at h
        · simp at h
        · simp only [List.getElem?_cons_succ, List.getElem?_cons_zero, Option.some.injEq,
            Event.callFactory.injEq] at h
          subst h
          exact ⟨fac, hl, by simp⟩
        · simp at h
        · simp at h
        · simp only [List.getElem?_cons_succ] at h ⊢
          exact ih₁ i file h
      · intro i name ctor h
        rcases i with _ | _ | _ | _ | _ | _ | i
        · simp at h
        · simp at h
        · simp at h
        · simp at h
        · simp only [List.getElem?_cons_succ, List.getElem?_cons_zero, Option.some.injEq,
            Event.addComponent.injEq] at h
          exact ⟨3, g, fac, rfl, hl, by simp, by rw [← h.1, ← h.2]⟩
        · simp at h
        · simp only [List.getElem?_cons_succ] at h
          obtain ⟨j, file, fac', hij, hl', hj, hp⟩ := ih₂ i name ctor h
          exact ⟨j + 6, file, fac', by omega, hl',
            by simp only [List.getElem?_cons_succ]; exact hj, hp⟩
    · rw [loadPlugins_openFails w g err _ hsuf ho]
      constructor
      · intro i file h
        have := List.getElem?_mem h
        simp at this
      · intro i name ctor h
        have := List.getElem?_mem h
        simp at this
    · rw [loadPlugins_lookupFails w g err _ hsuf hl]
      constructor
      · intro i file h
        have := List.getElem?_mem h
        simp at this
      · intro i name ctor h
        have := List.getElem?_mem h
        simp at this
    · rw [loadPlugins_wrongSignature w g _ hsuf hw]
      constructor
      · intro i file h
        have := List.getElem?_mem h
        simp at this
      · intro i name ctor h
        have := List.getElem?_mem h
        simp at this

theorem initializePlugins_pairing (w : World η σ κ) (s : String) :
    (∀ i file, (initializePlugins w s).2[i]? = some (Event.callFactory file) →
      ∃ fac, Loads w file fac ∧
        (initializePlugins w s).2[i + 1]? =
          some (Event.addComponent (fac ()).1 (fac ()).2)) ∧
    (∀ i name ctor, (initializePlugins w s).2[i]? = some (Event.addComponent name ctor) →
      ∃ j file fac, i = j + 1 ∧ Loads w file fac ∧
        (initializePlugins w s).2[j]? = some (Event.callFactory file) ∧
        (name, ctor) = fac ()) := by
  by_cases h : s = ""
  · subst h
    constructor
    · intro i file hi
      have := List.getElem?_mem hi
      simp [initializePlugins] at this
    · intro i name ctor hi
      have := List.getElem?_mem hi
      simp [initializePlugins] at this
  · rw [initializePlugins_of_ne_empty w s h]
    exact loadPlugins_pairing w _

end Loop

/-! ## The properties of the loader -/

section Claims

variable {η σ κ : Type}

/-- C1: when every path of the input list ends with `.so`, opens, exposes
`GetExternalComponent` and passes the signature check (with `fac file` the factory of
`file`), the loop returns nil and makes exactly one registry insertion per path, the
i-th one with the pair the factory of the i-th path returns; `initializePlugins` does
the same on every configuration string which splits into that list. -/
theorem initializePlugins_registers_every_valid_entry (w : World η σ κ)
    (files : List String) (fac : String → Unit → String × κ)
    (h : ∀ file ∈ files, Loads w file (fac file)) :
    (loadPlugins w files).1 = none ∧
      insertions (loadPlugins w files).2 = files.map (fun file => fac file ()) ∧
      (insertions (loadPlugins w files).2).length = files.length ∧
      ∀ s, split s = files →
        (initializePlugins w s).1 = none ∧
          insertions (initializePlugins w s).2 = files.map (fun file => fac file ()) := by
  have hnf : ∀ g ∈ files, ¬ Fatal w g := fun g hg => not_fatal_of_loads (h g hg)
  have hres : (loadPlugins w files).1 = none := by
    have := (loadPlugins_append w files [] hnf).2
    exact this
  have hins : insertions (loadPlugins w files).2 = files.map (fun file => fac file ()) := by
    rw [insertions_loadPlugins_of_no_fatal w files hnf]
    clear hres hnf
    induction files with
    | nil => rfl
    | cons g files ih =>
      have hg := pairOf_loads (h g (List.mem_cons_self _ _))
      simp [List.filterMap_cons, hg, ih (fun x hx => h x (List.mem_cons_of_mem _ hx))]
  refine ⟨hres, hins, by simp [hins], ?_⟩
  intro s hs
  cases files with
  | nil =>
    have : split s ≠ [] := by
      unfold split
      cases hd : s.data with
      | nil => simp [splitChars]
      | cons c cs =>
        simp only [splitChars]
        split_ifs
        · simp
        · cases splitChars cs <;> simp
    exact absurd hs this
  | cons g files =>
    rw [initializePlugins_of_split w s _ g hs (List.mem_cons_self _ _)
      (h g (List.mem_cons_self _ _)).1]
    exact ⟨hres, hins⟩

/-- The scenario of the specification: `/p/a.so:/p/b.so`, both valid, registers `cacheX`
then `backendY` and returns nil. -/
theorem initializePlugins_registers_every_valid_entry_witness :
    (initializePlugins demoWorld "/p/a.so:/p/b.so").1 = none ∧
      insertions (initializePlugins demoWorld "/p/a.so:/p/b.so").2 =
        [("cacheX", 1), ("backendY", 2)] :=
  have h := (initializePlugins_registers_every_valid_entry demoWorld
    ["/p/a.so", "/p/b.so"] demoFactory
    (by
      intro file hfile
      simp only [List.mem_cons, List.mem_singleton, List.not_mem_nil, or_false] at hfile
      rcases hfile with rfl | rfl
      · exact demoWorld_loads _ (by decide) (by decide) (by decide) (by decide)
      · exact demoWorld_loads _ (by decide) (by decide) (by decide) (by decide))).2.2.2
    "/p/a.so:/p/b.so" (by decide)
  ⟨h.1, h.2.trans (by decide)⟩

/-- C2: on the empty configuration value (the variable is empty or unset)
`initializePlugins` returns nil, makes no registry insertion and opens no plugin: its
only effect is one line of log. -/
theorem initializePlugins_empty (w : World η σ κ) :
    (initializePlugins w "").1 = none ∧
      insertions (initializePlugins w "").2 = [] ∧
      opened (initializePlugins w "").2 = [] ∧
      (initializePlugins w "").2 =
        [Event.logInfo "No plugins to load, BLOBFUSE_PLUGIN_PATH is empty"] := by
  simp [initializePlugins, insertions, opened]

/-- C4: when the first fatally failing entry of the list is `file`, after the entries
`pre` and before the entries `post`, `initializePlugins` returns an error; its effects
are those of the run on `pre` followed by effects on `file` alone, among which there is
one open (of `file`) and no insertion; the insertions of the run are those of the valid
entries of `pre`; and the run does not depend on `post`. -/
theorem initializePlugins_aborts_on_first_fatal (w : World η σ κ) (s : String)
    (pre post : List String) (file : String)
    (hsplit : split s = pre ++ file :: post)
    (hpre : ∀ g ∈ pre, ¬ Fatal w g) (hfatal : Fatal w file) :
    (initializePlugins w s).1 ≠ none ∧
      (∃ tail, (initializePlugins w s).2 = (loadPlugins w pre).2 ++ tail ∧
        insertions tail = [] ∧ opened tail = [file] ∧ factoryCalls tail = []) ∧
      insertions (initializePlugins w s).2 = pre.filterMap (pairOf w) ∧
      opened (initializePlugins w s).2 = opened (loadPlugins w pre).2 ++ [file] ∧
      initializePlugins w s = loadPlugins w (pre ++ [file]) := by
  rw [initializePlugins_of_split w s _ file hsplit (by simp) hfatal.1]
  obtain ⟨msg, tail, hrun, hins, hop, hfc⟩ := loadPlugins_fatal w file post hfatal
  obtain ⟨msg', tail', hrun', -⟩ := loadPlugins_fatal w file [] hfatal
  have happ := (loadPlugins_append w pre (file :: post) hpre).1
  have happ' := (loadPlugins_append w pre [file] hpre).1
  have hsame : loadPlugins w (file :: post) = loadPlugins w [file] := by
    obtain ⟨hsuf, ⟨err, ho⟩ | ⟨err, hl⟩ | hw⟩ := hfatal
    · rw [loadPlugins_openFails w file err _ hsuf ho, loadPlugins_openFails w file err _ hsuf ho]
    · rw [loadPlugins_lookupFails w file err _ hsuf hl,
        loadPlugins_lookupFails w file err _ hsuf hl]
    · rw [loadPlugins_wrongSignature w file _ hsuf hw,
        loadPlugins_wrongSignature w file _ hsuf hw]
  refine ⟨?_, ⟨tail, ?_, hins, hop, hfc⟩, ?_, ?_, ?_⟩
  · rw [happ, hrun]; simp
  · rw [happ, hrun]; rfl
  · rw [happ, hrun]
    simp [insertions_append, hins, insertions_loadPlugins_of_no_fatal w pre hpre]
  · rw [happ, hrun]
    simp [opened_append, hop]
  · rw [happ, happ', hsame]

/-- With `/p/a.so` valid and `/p/missing.so` failing to open, the run on
`/p/a.so:/p/missing.so:/p/b.so` returns an error and keeps the insertion of `cacheX`
alone. -/
theorem initializePlugins_aborts_on_first_fatal_witness :
    (initializePlugins demoWorld "/p/a.so:/p/missing.so:/p/b.so").1 ≠ none ∧
      insertions (initializePlugins demoWorld "/p/a.so:/p/missing.so:/p/b.so").2 =
        [("cacheX", 1)] :=
  have h := initializePlugins_aborts_on_first_fatal demoWorld
    "/p/a.so:/p/missing.so:/p/b.so" ["/p/a.so"] ["/p/b.so"] "/p/missing.so" (by decide)
    demoWorld_no_fatal_a ⟨by decide, Or.inl ⟨_, demoWorld_openFails⟩⟩
  ⟨h.1, h.2.2.1.trans (by decide)⟩

/-- C5: the error returned for a symbol of the wrong signature differs from the error
returned for a symbol which is not found, whatever the two paths and the cause of the
lookup failure: the first run returns the incorrect-definition message, the second the
lookup-error message, and the two messages are different. -/
theorem wrongSignature_error_ne_lookup_error (w₁ w₂ : World η σ κ) (s₁ s₂ : String)
    (pre₁ post₁ pre₂ post₂ : List String) (f₁ f₂ err : String)
    (hsplit₁ : split s₁ = pre₁ ++ f₁ :: post₁) (hpre₁ : ∀ g ∈ pre₁, ¬ Fatal w₁ g)
    (hsuf₁ : hasSuffix f₁ ".so" = true) (hwrong : WrongSignature w₁ f₁)
    (hsplit₂ : split s₂ = pre₂ ++ f₂ :: post₂) (hpre₂ : ∀ g ∈ pre₂, ¬ Fatal w₂ g)
    (hsuf₂ : hasSuffix f₂ ".so" = true) (hlookup : LookupFails w₂ f₂ err) :
    (initializePlugins w₁ s₁).1 =
        some ("GetExternalComponent function in " ++ f₁ ++ " has some incorrect definition") ∧
      (initializePlugins w₂ s₂).1 =
        some ("GetExternalComponent function lookup error in plugin " ++ f₂ ++ ": " ++ err) ∧
      (initializePlugins w₁ s₁).1 ≠ (initializePlugins w₂ s₂).1 := by
  have h₁ : (initializePlugins w₁ s₁).1 =
      some ("GetExternalComponent function in " ++ f₁ ++ " has some incorrect definition") := by
    rw [loadPlugins_first_fatal w₁ s₁ pre₁ post₁ f₁ hsplit₁ hpre₁ hsuf₁,
      loadPlugins_wrongSignature w₁ f₁ _ hsuf₁ hwrong]
    rfl
  have h₂ : (initializePlugins w₂ s₂).1 =
      some ("GetExternalComponent function lookup error in plugin " ++ f₂ ++ ": " ++ err) := by
    rw [loadPlugins_first_fatal w₂ s₂ pre₂ post₂ f₂ hsplit₂ hpre₂ hsuf₂,
      loadPlugins_lookupFails w₂ f₂ err _ hsuf₂ hlookup]
    rfl
  refine ⟨h₁, h₂, ?_⟩
  rw [h₁, h₂]
  intro h
  exact wrongSignature_msg_ne_lookup_msg f₁ f₂ err (Option.some.inj h)

/-- The errors of `/p/wrong.so` (wrong signature) and of `/p/nosym.so` (symbol not found)
are different. -/
theorem wrongSignature_error_ne_lookup_error_witness :
    (initializePlugins demoWorld "/p/wrong.so").1 ≠
      (initializePlugins demoWorld "/p/nosym.so").1 :=
  (wrongSignature_error_ne_lookup_error demoWorld demoWorld "/p/wrong.so" "/p/nosym.so"
    [] [] [] [] "/p/wrong.so" "/p/nosym.so" "symbol not found"
    (by decide) (by simp) (by decide) demoWorld_wrongSignature
    (by decide) (by simp) (by decide) demoWorld_lookupFails).2.2

/-- C6: when the first fatal entry of the run is `file`, the error returned and the
error line logged last both contain the path `file`, and both contain the text of the
cause when the failure has one: the error of `plugin.Open`, or the error of `Lookup`.
A signature mismatch has no error value; its message is the path within the fixed
description of the mismatch. -/
theorem fatal_error_contains_path_and_cause (w : World η σ κ) (s : String)
    (pre post : List String) (file : String)
    (hsplit : split s = pre ++ file :: post)
    (hpre : ∀ g ∈ pre, ¬ Fatal w g) (hsuf : hasSuffix file ".so" = true) :
    (∀ err, OpenFails w file err →
      (initializePlugins w s).1 = some ("error opening plugin " ++ file ++ ": " ++ err) ∧
      (initializePlugins w s).2.getLast? =
        some (Event.logErr ("Error opening plugin " ++ file ++ ": " ++ err)) ∧
      occursIn file ("error opening plugin " ++ file ++ ": " ++ err) ∧
      occursIn err ("error opening plugin " ++ file ++ ": " ++ err) ∧
      occursIn file ("Error opening plugin " ++ file ++ ": " ++ err) ∧
      occursIn err ("Error opening plugin " ++ file ++ ": " ++ err)) ∧
    (∀ err, LookupFails w file err →
      (initializePlugins w s).1 =
        some ("GetExternalComponent function lookup error in plugin " ++ file ++ ": "
          ++ err) ∧
      (initializePlugins w s).2.getLast? =
        some (Event.logErr ("GetExternalComponent function lookup error in plugin "
          ++ file ++ ": " ++ err)) ∧
      occursIn file ("GetExternalComponent function lookup error in plugin " ++ file
        ++ ": " ++ err) ∧
      occursIn err ("GetExternalComponent function lookup error in plugin " ++ file
        ++ ": " ++ err)) ∧
    (WrongSignature w file →
      (initializePlugins w s).1 =
        some ("GetExternalComponent function in " ++ file
          ++ " has some incorrect definition") ∧
      (initializePlugins w s).2.getLast? =
        some (Event.logErr ("GetExternalComponent function in " ++ file
          ++ " has some incorrect definition")) ∧
      occursIn file ("GetExternalComponent function in " ++ file
        ++ " has some incorrect definition")) := by
  have hrun := loadPlugins_first_fatal w s pre post file hsplit hpre hsuf
  refine ⟨?_, ?_, ?_⟩
  · intro err ho
    rw [hrun, loadPlugins_openFails w file err _ hsuf ho]
    refine ⟨rfl, getLast?_append_of_getLast? _ _ _ rfl, ?_, ?_, ?_, ?_⟩
    · exact occursIn_append_left _ (occursIn_append_left _ (occursIn_append_right _
        (occursIn_refl _)))
    · exact occursIn_append_right _ (occursIn_refl _)
    · exact occursIn_append_left _ (occursIn_append_left _ (occursIn_append_right _
        (occursIn_refl _)))
    · exact occursIn_append_right _ (occursIn_refl _)
  · intro err hl
    rw [hrun, loadPlugins_lookupFails w file err _ hsuf hl]
    refine ⟨rfl, getLast?_append_of_getLast? _ _ _ rfl, ?_, ?_⟩
    · exact occursIn_append_left _ (occursIn_append_left _ (occursIn_append_right _
        (occursIn_refl _)))
    · exact occursIn_append_right _ (occursIn_refl _)
  · intro hw
    rw [hrun, loadPlugins_wrongSignature w file _ hsuf hw]
    refine ⟨rfl, getLast?_append_of_getLast? _ _ _ rfl, ?_⟩
    exact occursIn_append_left _ (occursIn_append_right _ (occursIn_refl _))

/-- The error of the run on `/p/a.so:/p/missing.so` contains the path `/p/missing.so` and
the cause `no such file`. -/
theorem fatal_error_contains_path_and_cause_witness :
    (initializePlugins demoWorld "/p/a.so:/p/missing.so").1 =
        some ("error opening plugin " ++ "/p/missing.so" ++ ": " ++ "no such file") ∧
      occursIn "/p/missing.so"
        ("error opening plugin " ++ "/p/missing.so" ++ ": " ++ "no such file") ∧
      occursIn "no such file"
        ("error opening plugin " ++ "/p/missing.so" ++ ": " ++ "no such file") :=
  have h := (fatal_error_contains_path_and_cause demoWorld "/p/a.so:/p/missing.so"
    ["/p/a.so"] [] "/p/missing.so" (by decide) demoWorld_no_fatal_a (by decide)).1
    "no such file" demoWorld_openFails
  ⟨h.1, h.2.2.1, h.2.2.2.1⟩

/-- C9: the effects of `init` contain `os.Exit(1)` exactly when `initializePlugins`
returns an error; in that case `init` logs the error, prints it and exits with status 1
as its last effect; when `initializePlugins` returns nil, the effects of `init` are
those of `initializePlugins` and contain no exit. -/
theorem init_exits_iff_error (w : World η σ κ) (s : String) :
    (Event.exit 1 ∈ init w s ↔ (initializePlugins w s).1 ≠ none) ∧
      (∀ err, (initializePlugins w s).1 = some err →
        init w s = (initializePlugins w s).2 ++
          [Event.logErr ("custom::Error initializing plugins: " ++ err),
           Event.printf ("failed to initialize plugin: " ++ err ++ "\n"),
           Event.exit 1]) ∧
      ((initializePlugins w s).1 = none →
        init w s = (initializePlugins w s).2 ∧ ∀ code, Event.exit code ∉ init w s) := by
  have hk := initializePlugins_trace_kinds w s
  unfold init
  rcases hrun : initializePlugins w s with ⟨res, trace⟩
  rw [hrun] at hk
  cases res with
  | none =>
    refine ⟨?_, ?_, ?_⟩
    · simp only [ne_eq, not_true_eq_false, iff_false]
      exact fun hmem => (hk _ hmem).1 1 rfl
    · intro err h; cases h
    · intro _
      exact ⟨rfl, fun code hmem => (hk _ hmem).1 code rfl⟩
  | some e =>
    refine ⟨?_, ?_, ?_⟩
    · simp
    · intro err h
      cases h
      rfl
    · intro h; cases h

/-- C3: the entries which do not end with `.so` are skipped without an error: the loop
returns the same result and makes the same insertions on `files` as on `files` without
these entries; when the entries which remain are all valid the result is nil and the
number of insertions is the number of entries minus the number of skipped ones; and
`initializePlugins` returns the result and makes the insertions of the loop on the
entries of its configuration string. -/
theorem skipped_entries_do_not_matter (w : World η σ κ) (files : List String) :
    (loadPlugins w files).1 =
        (loadPlugins w (files.filter (fun f => hasSuffix f ".so"))).1 ∧
      insertions (loadPlugins w files).2 =
        insertions (loadPlugins w (files.filter (fun f => hasSuffix f ".so"))).2 ∧
      ((∀ f ∈ files, hasSuffix f ".so" = true → ∃ fac, Loads w f fac) →
        (loadPlugins w files).1 = none ∧
          insertions (loadPlugins w files).2 =
            (files.filter (fun f => hasSuffix f ".so")).filterMap (pairOf w) ∧
          (insertions (loadPlugins w files).2).length =
            files.length - (files.filter (fun f => !hasSuffix f ".so")).length) ∧
      (∀ s, split s = files →
        (initializePlugins w s).1 = (loadPlugins w files).1 ∧
          insertions (initializePlugins w s).2 = insertions (loadPlugins w files).2) := by
  obtain ⟨h₁, h₂, -⟩ := loadPlugins_filter w files
  refine ⟨h₁, h₂, ?_, ?_⟩
  · intro hvalid
    have hnf : ∀ g ∈ files.filter (fun f => hasSuffix f ".so"), ¬ Fatal w g := by
      intro g hg
      obtain ⟨hmem, hsuf⟩ := List.mem_filter.mp hg
      obtain ⟨fac, hl⟩ := hvalid g hmem hsuf
      exact not_fatal_of_loads hl
    have hlen : ((files.filter (fun f => hasSuffix f ".so")).filterMap (pairOf w)).length =
        (files.filter (fun f => hasSuffix f ".so")).length := by
      have hsome : ∀ l : List String, (∀ g ∈ l, ∃ fac, Loads w g fac) →
          (l.filterMap (pairOf w)).length = l.length := by
        intro l
        induction l with
        | nil => intro _; rfl
        | cons g l ih =>
          intro hl
          obtain ⟨fac, hg⟩ := hl g (List.mem_cons_self _ _)
          simp [List.filterMap_cons, pairOf_loads hg,
            ih (fun x hx => hl x (List.mem_cons_of_mem _ hx))]
      apply hsome
      intro g hg
      obtain ⟨hmem, hsuf⟩ := List.mem_filter.mp hg
      exact hvalid g hmem hsuf
    have hcount := length_filter_add_length_filter_not (fun f => hasSuffix f ".so") files
    refine ⟨?_, ?_, ?_⟩
    · rw [h₁]
      exact (loadPlugins_append w _ [] hnf).2
    · rw [h₂, insertions_loadPlugins_of_no_fatal w _ hnf]
    · rw [h₂, insertions_loadPlugins_of_no_fatal w _ hnf, hlen]
      omega
  · intro s hs
    subst hs
    exact ⟨(initializePlugins_split w s).1, (initializePlugins_split w s).2.1⟩

/-- C7, as stated, fails: the descriptor of the non-empty configuration string
`a.so::b.so` contains the empty path. -/
theorem split_has_empty_path : "a.so::b.so" ≠ "" ∧ "" ∈ split "a.so::b.so" := by
  decide

/-- C7, amended: the descriptor of a non-empty configuration string contains an empty
path exactly when the string begins with `:`, ends with `:` or contains `::`; and the
empty path fails the suffix check of the loop. -/
theorem split_empty_path_iff (s : String) (h : s ≠ "") :
    ("" ∈ split s ↔
        s.data.head? = some ':' ∨ s.data.getLast? = some ':' ∨ occursIn "::" s) ∧
      hasSuffix "" ".so" = false := by
  refine ⟨?_, by decide⟩
  rw [empty_mem_split, nil_mem_splitChars]
  have hd : s.data ≠ [] := by
    intro hnil
    apply h
    cases s
    simp_all
  constructor
  · rintro (h' | h')
    · exact absurd h' hd
    · exact h'
  · exact Or.inr

/-- The descriptor of `/p/a.so:/p/b.so` contains no empty path. -/
theorem split_empty_path_iff_witness :
    "/p/a.so:/p/b.so" ≠ "" ∧ "" ∉ split "/p/a.so:/p/b.so" :=
  ⟨by decide,
    fun hmem => absurd ((split_empty_path_iff "/p/a.so:/p/b.so" (by decide)).1.mp hmem)
      (by decide)⟩

/-- C8: on every configuration string the paths `initializePlugins` opens are, in order,
entries of the string which pass the suffix check, so each ends with `.so` and is not
empty; every lookup and every factory call is on an opened path, and every insertion is
the pair of an opened path. -/
theorem opened_paths_end_with_so (w : World η σ κ) (s : String) :
    opened (initializePlugins w s).2 <+: (split s).filter (fun f => hasSuffix f ".so") ∧
      (∀ f ∈ opened (initializePlugins w s).2,
        hasSuffix f ".so" = true ∧ f ≠ "" ∧ f ∈ split s) ∧
      (∀ f ∈ lookedUp (initializePlugins w s).2, f ∈ opened (initializePlugins w s).2) ∧
      (∀ f ∈ factoryCalls (initializePlugins w s).2,
        f ∈ opened (initializePlugins w s).2) ∧
      (∀ pair ∈ insertions (initializePlugins w s).2,
        ∃ f ∈ opened (initializePlugins w s).2, pairOf w f = some pair) := by
  obtain ⟨h₁, h₂, h₃, h₄, -⟩ := initializePlugins_touched w s
  refine ⟨h₁, ?_, ?_, ?_, ?_⟩
  · intro f hf
    obtain ⟨hmem, hsuf⟩ := List.mem_filter.mp (h₁.subset hf)
    exact ⟨hsuf, hasSuffix_ne_empty hsuf, hmem⟩
  · exact fun f hf => h₂.subset hf
  · exact fun f hf => h₂.subset (h₃.subset hf)
  · intro pair hp
    rw [h₄] at hp
    obtain ⟨f, hf, hpair⟩ := List.mem_filterMap.mp hp
    exact ⟨f, h₂.subset (h₃.subset hf), hpair⟩

/-- C10: in the effects of `initializePlugins` every call of a factory is the call of the
verified factory of a valid entry and is followed at once by the insertion of the pair
it returned, constructor unchanged; every insertion follows at once such a call; there
are as many factory calls as insertions; and no effect is a call of a constructor. -/
theorem factory_called_once_per_insertion (w : World η σ κ) (s : String) :
    (∀ i file, (initializePlugins w s).2[i]? = some (Event.callFactory file) →
      ∃ fac, Loads w file fac ∧
        (initializePlugins w s).2[i + 1]? =
          some (Event.addComponent (fac ()).1 (fac ()).2)) ∧
    (∀ i name ctor, (initializePlugins w s).2[i]? = some (Event.addComponent name ctor) →
      ∃ j file fac, i = j + 1 ∧ Loads w file fac ∧
        (initializePlugins w s).2[j]? = some (Event.callFactory file) ∧
        (name, ctor) = fac ()) ∧
    (factoryCalls (initializePlugins w s).2).length =
      (insertions (initializePlugins w s).2).length ∧
    (∀ ctor, Event.callConstructor ctor ∉ (initializePlugins w s).2) :=
  ⟨(initializePlugins_pairing w s).1, (initializePlugins_pairing w s).2,
    (initializePlugins_touched w s).2.2.2.2.symm,
    fun ctor hmem => (initializePlugins_trace_kinds w s _ hmem).2.1 ctor rfl⟩

end Claims

end Custom
